import Mathlib

/-!
Shallow embedding of the property-based-test execution engine:
the counterexample database with pluggable compression and its binary
export/import format, the parallel test runner and thread pool, and the
resource monitor / adaptive resource manager.

Conventions:
- C++ `std::string` and `std::vector<uint8_t>` values are byte lists
  (`List Nat`); `std::chrono::system_clock::time_point` values are
  milliseconds since the epoch (`Int`), matching what the export format
  serializes; C++ `double` is modeled as `Rat`.
- Fallible operations return `Except String` (a thrown `std::runtime_error`)
  or `Option` (an empty `std::optional`).
- Multi-byte integers are written by the source in host-native byte order;
  the model fixes little-endian (the order on the x86 hosts the code runs
  on); every claim below is insensitive to this choice because import and
  export use the same order.
-/

/-- One stored counterexample record
(`counterexample_database.hpp`, `struct CounterexampleEntry`). -/
structure CounterexampleEntry where
  test_name : List Nat
  property_name : List Nat
  compressed_data : List Nat
  error_message : List Nat
  timestamp : Int
  original_size : Nat
  compressed_size : Nat
  compression_algorithm : List Nat
  metadata : List (List Nat × List Nat)
deriving DecidableEq

/-- Database configuration (`CounterexampleDatabase::Config`). The
`database_path` / `enable_compression` knobs play no role in the claims
and are omitted; `retention_period` is kept in milliseconds. -/
structure DbConfig where
  max_database_size_mb : Nat
  max_entries_per_test : Nat
  auto_cleanup : Bool
  retention_period_ms : Int
  default_compression : List Nat
deriving DecidableEq

/-- ASCII bytes of the strategy name "none". -/
def nameNone : List Nat := [110, 111, 110, 101]

/-- ASCII bytes of the strategy name "gzip". -/
def nameGzip : List Nat := [103, 122, 105, 112]

/-- ASCII bytes of the strategy name "zstd". -/
def nameZstd : List Nat := [122, 115, 116, 100]

/-- Default `CounterexampleDatabase::Config` values from the header:
100 MB, 10 entries per test, auto-cleanup on, 30 days retention,
`default_compression = "zstd"`. -/
def defaultDbConfig : DbConfig :=
  { max_database_size_mb := 100
    max_entries_per_test := 10
    auto_cleanup := true
    retention_period_ms := 24 * 30 * 3600 * 1000
    default_compression := nameZstd }

/-- A compression strategy's two virtual methods
(`CompressionStrategy::compress/decompress`). -/
structure CompressionStrategy where
  compress : List Nat → List Nat
  decompress : List Nat → Option (List Nat)

/-- `NoCompression`: `compress` copies the bytes, `decompress` copies them
back, never failing. -/
def noCompression : CompressionStrategy :=
  { compress := fun data => data
    decompress := fun compressed => some compressed }

/-- `GzipCompression`: a thin wrapper over zlib's deflate/inflate, which are
external library functions passed in as `df`/`inf`. The source sets
`zs.avail_in = static_cast<uInt>(size)`, so only the first
`size mod 2^32` bytes of the input are ever handed to zlib, on both the
compress and the decompress path. -/
def gzipStrategy (df : Nat → List Nat → List Nat) (inf : List Nat → Option (List Nat))
    (compression_level : Nat) : CompressionStrategy :=
  { compress := fun data => df compression_level (data.take (data.length % 2 ^ 32))
    decompress := fun compressed => inf (compressed.take (compressed.length % 2 ^ 32)) }

/-- `ZstdCompression`: a placeholder that constructs a default-config
`GzipCompression` (level 6) and delegates both methods to it. -/
def zstdStrategy (df : Nat → List Nat → List Nat) (inf : List Nat → Option (List Nat)) :
    CompressionStrategy :=
  { compress := fun data => (gzipStrategy df inf 6).compress data
    decompress := fun compressed => (gzipStrategy df inf 6).decompress compressed }

/-- `Lz4Compression`: the same placeholder delegation to a default-config
`GzipCompression` as `ZstdCompression`. -/
def lz4Strategy (df : Nat → List Nat → List Nat) (inf : List Nat → Option (List Nat)) :
    CompressionStrategy :=
  { compress := fun data => (gzipStrategy df inf 6).compress data
    decompress := fun compressed => (gzipStrategy df inf 6).decompress compressed }

/-- Lookup in the `compression_strategies_` map (at most one entry per
name, so first match is the map lookup). -/
def findStrategy (reg : List (List Nat × CompressionStrategy)) (name : List Nat) :
    Option CompressionStrategy :=
  match reg with
  | [] => none
  | (n, s) :: rest => if n = name then some s else findStrategy rest name

/-- The strategies the `CounterexampleDatabase` constructor registers:
only "none" and "gzip". -/
def constructorStrategies (df : Nat → List Nat → List Nat)
    (inf : List Nat → Option (List Nat)) : List (List Nat × CompressionStrategy) :=
  [(nameNone, noCompression), (nameGzip, gzipStrategy df inf 6)]

/-- `CounterexampleDatabase::compress_data`: unknown algorithm is a thrown
runtime error; otherwise delegate to the strategy. -/
def compress_data (reg : List (List Nat × CompressionStrategy)) (data : List Nat)
    (algorithm : List Nat) : Except String (List Nat) :=
  match findStrategy reg algorithm with
  | none => .error "Unknown compression algorithm"
  | some s => .ok (s.compress data)

/-- `CounterexampleDatabase::decompress_data`: unknown algorithm is a soft
failure (`nullopt`). -/
def decompress_data (reg : List (List Nat × CompressionStrategy)) (data : List Nat)
    (algorithm : List Nat) : Option (List Nat) :=
  match findStrategy reg algorithm with
  | none => none
  | some s => s.decompress data

/-- `DatabaseImpl::query_by_test`: linear scan keeping entries whose
`test_name` matches. -/
def query_by_test (entries : List CounterexampleEntry) (name : List Nat) :
    List CounterexampleEntry :=
  entries.filter (fun e => decide (e.test_name = name))

/-- `cleanup_old_entries`: drop every entry strictly older than
`now - retention_period` (`DatabaseImpl::remove_old_entries`). -/
def cleanup_old_entries (cfg : DbConfig) (now : Int) (entries : List CounterexampleEntry) :
    List CounterexampleEntry :=
  entries.filter (fun e => decide (now - cfg.retention_period_ms ≤ e.timestamp))

/-- Insertion step of the model of `std::sort` with comparator
`a.timestamp > b.timestamp`. `std::sort` is unstable and its result on
tied keys is unspecified; this deterministic insertion sort is one
implementation of that contract. -/
def insertByTimestampDesc (e : CounterexampleEntry) :
    List CounterexampleEntry → List CounterexampleEntry
  | [] => [e]
  | x :: xs => if x.timestamp < e.timestamp then e :: x :: xs else x :: insertByTimestampDesc e xs

/-- Model of `std::sort(entries, comp = (a.timestamp > b.timestamp))`. -/
def sortByTimestampDesc : List CounterexampleEntry → List CounterexampleEntry
  | [] => []
  | x :: xs => insertByTimestampDesc x (sortByTimestampDesc xs)

/-- The `find_if` + `erase` step of `enforce_size_limits`: remove the first
entry matching the given `(test_name, timestamp)` key. -/
def erase_first_match (entries : List CounterexampleEntry) (name : List Nat) (ts : Int) :
    List CounterexampleEntry :=
  entries.eraseP (fun e => decide (e.test_name = name ∧ e.timestamp = ts))

/-- Per-test branch of `enforce_size_limits`: when a test name holds more
than `max_entries_per_test` entries, sort its entries newest-first and
erase (by `(test_name, timestamp)` key, first match) each one past the
limit. -/
def enforce_test_limit (maxPerTest : Nat) (entries : List CounterexampleEntry)
    (name : List Nat) : List CounterexampleEntry :=
  if maxPerTest < (query_by_test entries name).length then
    let test_entries := sortByTimestampDesc (query_by_test entries name)
    (test_entries.drop maxPerTest).foldl
      (fun acc te => erase_first_match acc te.test_name te.timestamp) entries
  else entries

/-- The distinct test names of the `test_counts` map. `std::unordered_map`
iteration order is unspecified; the model enumerates distinct names via
`dedup`. Removals for different names touch disjoint entries, so the
enumeration order does not affect the result. -/
def test_names (entries : List CounterexampleEntry) : List (List Nat) :=
  (entries.map (·.test_name)).dedup

/-- `DatabaseImpl::total_size`: sum of the stored `compressed_size` fields. -/
def total_size (entries : List CounterexampleEntry) : Nat :=
  (entries.map (·.compressed_size)).sum

/-- Timestamp scan behind `std::min_element` on the entry list. -/
def oldestTimestampFrom : List CounterexampleEntry → Int → Int
  | [], acc => acc
  | e :: rest, acc => oldestTimestampFrom rest (min acc e.timestamp)

/-- The minimal timestamp of a nonempty entry list (0 for the empty list,
where the source never calls it). -/
def minTimestamp : List CounterexampleEntry → Int
  | [] => 0
  | e :: rest => oldestTimestampFrom rest e.timestamp

/-- `std::min_element` + `erase`: remove the first entry holding the
minimal timestamp. -/
def eraseOldest (entries : List CounterexampleEntry) : List CounterexampleEntry :=
  entries.eraseP (fun e => decide (e.timestamp = minTimestamp entries))

/-- The scanned minimum is the timestamp of some entry of a nonempty list. -/
theorem oldestTimestampFrom_mem (rest : List CounterexampleEntry) (acc : Int) :
    oldestTimestampFrom rest acc = acc ∨
      oldestTimestampFrom rest acc ∈ rest.map (·.timestamp) := by
  induction rest generalizing acc with
  | nil => exact Or.inl rfl
  | cons e rest ih =>
    have hstep : oldestTimestampFrom (e :: rest) acc
        = oldestTimestampFrom rest (min acc e.timestamp) := rfl
    rcases ih (min acc e.timestamp) with h | h
    · rcases min_choice acc e.timestamp with hm | hm
      · exact Or.inl (by rw [hstep, h, hm])
      · refine Or.inr ?_
        rw [hstep, h, hm]
        simp
    · refine Or.inr ?_
      rw [hstep]
      simp only [List.map_cons, List.mem_cons]
      right
      exact h

/-- Erasing the first element satisfying a predicate that some member
satisfies shortens the list by exactly one. -/
theorem length_eraseP_mem {α : Type} (p : α → Bool) :
    ∀ (l : List α), (∃ a ∈ l, p a = true) → (l.eraseP p).length + 1 = l.length := by
  intro l
  induction l with
  | nil => rintro ⟨a, ha, _⟩; cases ha
  | cons x xs ih =>
    rintro ⟨a, ha, hpa⟩
    by_cases hx : p x = true
    · simp [List.eraseP_cons, hx]
    · rw [Bool.not_eq_true] at hx
      rcases List.mem_cons.mp ha with rfl | ha2
      · rw [hpa] at hx; cases hx
      · have := ih ⟨a, ha2, hpa⟩
        simp only [List.eraseP_cons, hx, cond_false, List.length_cons]
        omega

/-- Erasing the oldest entry of a nonempty list shortens it. -/
theorem length_eraseOldest_lt (entries : List CounterexampleEntry) (h : entries ≠ []) :
    (eraseOldest entries).length < entries.length := by
  match entries with
  | [] => exact absurd rfl h
  | e :: rest =>
    have hmem : ∃ a ∈ e :: rest, decide (a.timestamp = minTimestamp (e :: rest)) = true := by
      rcases oldestTimestampFrom_mem rest e.timestamp with h1 | h1
      · exact ⟨e, by simp, by simp [minTimestamp, h1]⟩
      · rcases List.mem_map.mp h1 with ⟨a, ha, hts⟩
        exact ⟨a, by simp [ha], by simp [minTimestamp, hts]⟩
    have := length_eraseP_mem _ (e :: rest) hmem
    unfold eraseOldest
    omega

/-- Total-size branch of `enforce_size_limits`: while the summed compressed
size exceeds the budget and entries remain, erase the globally oldest
entry. -/
def enforceTotalSize (maxBytes : Nat) (entries : List CounterexampleEntry) :
    List CounterexampleEntry :=
  if h : maxBytes < total_size entries ∧ entries ≠ [] then
    enforceTotalSize maxBytes (eraseOldest entries)
  else entries
termination_by entries.length
decreasing_by exact length_eraseOldest_lt entries h.2

/-- `CounterexampleDatabase::enforce_size_limits`: per-test limit first,
then the total-size limit (budget is `max_database_size_mb * 1024 * 1024`
bytes). -/
def enforce_size_limits (cfg : DbConfig) (entries : List CounterexampleEntry) :
    List CounterexampleEntry :=
  enforceTotalSize (cfg.max_database_size_mb * 1024 * 1024)
    ((test_names entries).foldl (enforce_test_limit cfg.max_entries_per_test) entries)

/-- `CounterexampleDatabase::store`: compress with the default algorithm
(a thrown runtime error aborts the call before any mutation), append the
new entry, then, when `auto_cleanup` is set, purge expired entries and
enforce the size limits. `now` stands for `system_clock::now()`. -/
def store (reg : List (List Nat × CompressionStrategy)) (cfg : DbConfig) (now : Int)
    (entries : List CounterexampleEntry) (test_name property_name : List Nat)
    (counterexample_data : List Nat) (error_message : List Nat)
    (metadata : List (List Nat × List Nat)) : Except String (List CounterexampleEntry) :=
  match compress_data reg counterexample_data cfg.default_compression with
  | .error msg => .error msg
  | .ok compressed =>
    let entry : CounterexampleEntry :=
      { test_name := test_name
        property_name := property_name
        compressed_data := compressed
        error_message := error_message
        timestamp := now
        original_size := counterexample_data.length
        compressed_size := compressed.length
        compression_algorithm := cfg.default_compression
        metadata := metadata }
    let entries1 := entries ++ [entry]
    if cfg.auto_cleanup then
      .ok (enforce_size_limits cfg (cleanup_old_entries cfg now entries1))
    else
      .ok entries1

/-!
Binary export/import container (`export_to_file` / `import_from_file`).
-/

/-- The four magic bytes "PBTC" that open every export file. -/
def magicPBTC : List Nat := [80, 66, 84, 67]

/-- The four little-endian bytes of `static_cast<uint32_t>(n)`. -/
def encodeU32 (n : Nat) : List Nat :=
  [n % 256, n / 256 % 256, n / 256 ^ 2 % 256, n / 256 ^ 3 % 256]

/-- The eight little-endian bytes of a `uint64_t` (`size_t`) value. -/
def encodeU64 (n : Nat) : List Nat :=
  [n % 256, n / 256 % 256, n / 256 ^ 2 % 256, n / 256 ^ 3 % 256,
   n / 256 ^ 4 % 256, n / 256 ^ 5 % 256, n / 256 ^ 6 % 256, n / 256 ^ 7 % 256]

/-- The eight bytes of the `int64_t` millisecond timestamp, two's
complement. -/
def encodeI64 (i : Int) : List Nat :=
  encodeU64 (i % (2 ^ 64 : Int)).toNat

/-- Reassemble a `uint32_t` from four little-endian bytes. -/
def decodeU32 (bs : List Nat) : Nat :=
  bs.getD 0 0 + 256 * bs.getD 1 0 + 256 ^ 2 * bs.getD 2 0 + 256 ^ 3 * bs.getD 3 0

/-- Reassemble a `uint64_t` from eight little-endian bytes. -/
def decodeU64 (bs : List Nat) : Nat :=
  bs.getD 0 0 + 256 * bs.getD 1 0 + 256 ^ 2 * bs.getD 2 0 + 256 ^ 3 * bs.getD 3 0 +
    256 ^ 4 * bs.getD 4 0 + 256 ^ 5 * bs.getD 5 0 + 256 ^ 6 * bs.getD 6 0 +
    256 ^ 7 * bs.getD 7 0

/-- Reassemble an `int64_t` from eight bytes, two's complement. -/
def decodeI64 (bs : List Nat) : Int :=
  if decodeU64 bs < 2 ^ 63 then (decodeU64 bs : Int) else (decodeU64 bs : Int) - 2 ^ 64

/-- A length-prefixed string field as the export loop writes it: the
truncated `uint32_t` length, then that many bytes of the buffer. -/
def encodeField (l : List Nat) : List Nat :=
  encodeU32 l.length ++ l.take (l.length % 2 ^ 32)

/-- The byte run `export_to_file` writes for one entry: four
length-prefixed string fields, the millisecond timestamp, the two sizes,
then the algorithm name. `metadata` is not written. -/
def encodeEntry (e : CounterexampleEntry) : List Nat :=
  encodeField e.test_name ++ encodeField e.property_name ++
    encodeField e.compressed_data ++ encodeField e.error_message ++
    encodeI64 e.timestamp ++ encodeU64 e.original_size ++
    encodeU64 e.compressed_size ++ encodeField e.compression_algorithm

/-- Byte runs of consecutive entries, back to back. -/
def encodeEntries : List CounterexampleEntry → List Nat
  | [] => []
  | e :: rest => encodeEntry e ++ encodeEntries rest

/-- `CounterexampleDatabase::export_to_file`: magic, version 1, the
truncated `uint32_t` entry count, then every entry. -/
def export_to_file (entries : List CounterexampleEntry) : List Nat :=
  magicPBTC ++ encodeU32 1 ++ encodeU32 entries.length ++ encodeEntries entries

/-- Sequential read state of the `std::ifstream`: remaining bytes plus the
failbit. -/
structure ByteStream where
  rem : List Nat
  failed : Bool
deriving DecidableEq

/-- One `file.read(buf, n)`: with the failbit set nothing is read; a full
read consumes `n` bytes; a short read consumes what is left and sets the
failbit. The unread tail of the destination keeps its prior content —
zeros for a buffer sized by `std::string::resize`, indeterminate for a raw
stack integer; the model uses zeros, and no theorem below depends on that
choice. -/
def readBytes (s : ByteStream) (n : Nat) : List Nat × ByteStream :=
  if s.failed then (List.replicate n 0, s)
  else if n ≤ s.rem.length then (s.rem.take n, ⟨s.rem.drop n, false⟩)
  else (s.rem ++ List.replicate (n - s.rem.length) 0, ⟨[], true⟩)

/-- Read a `uint32_t`. -/
def readU32 (s : ByteStream) : Nat × ByteStream :=
  let r := readBytes s 4
  (decodeU32 r.1, r.2)

/-- Read a `uint64_t`. -/
def readU64 (s : ByteStream) : Nat × ByteStream :=
  let r := readBytes s 8
  (decodeU64 r.1, r.2)

/-- Read an `int64_t`. -/
def readI64 (s : ByteStream) : Int × ByteStream :=
  let r := readBytes s 8
  (decodeI64 r.1, r.2)

/-- Read one length-prefixed string field: the `uint32_t` length, then a
buffer resized to it. -/
def readField (s : ByteStream) : List Nat × ByteStream :=
  let r := readU32 s
  readBytes r.2 r.1

/-- Parse one entry exactly as the import loop reads it; `metadata` is
never read and stays empty. -/
def readEntry (s : ByteStream) : CounterexampleEntry × ByteStream :=
  let rname := readField s
  let rprop := readField rname.2
  let rdata := readField rprop.2
  let rerr := readField rdata.2
  let rts := readI64 rerr.2
  let rosz := readU64 rts.2
  let rcsz := readU64 rosz.2
  let ralgo := readField rcsz.2
  (⟨rname.1, rprop.1, rdata.1, rerr.1, rts.1, rosz.1, rcsz.1, ralgo.1, []⟩, ralgo.2)

/-- The import loop: parse `n` entries, pushing each onto the database's
entry vector (`DatabaseImpl::add_entry`) as it is decoded. -/
def readEntriesInto : Nat → ByteStream → List CounterexampleEntry →
    List CounterexampleEntry × ByteStream
  | 0, s, acc => (acc, s)
  | n + 1, s, acc =>
    let r := readEntry s
    readEntriesInto n r.2 (acc ++ [r.1])

/-- `CounterexampleDatabase::import_from_file` on an existing entry list:
returns the entry list after the call together with the thrown error
message, if any. A bad magic or version throws before any entry is added;
after a valid header the loop appends every decoded entry and stream
failures (truncated files) are never checked, so the call returns
normally. -/
def import_from_file (entries : List CounterexampleEntry) (file : List Nat) :
    List CounterexampleEntry × Option String :=
  let s0 : ByteStream := ⟨file, false⟩
  let rmagic := readBytes s0 4
  if rmagic.1 ≠ magicPBTC then (entries, some "Invalid file format")
  else
    let rversion := readU32 rmagic.2
    if rversion.1 ≠ 1 then (entries, some "Unsupported file version")
    else
      let rcount := readU32 rversion.2
      ((readEntriesInto rcount.1 rcount.2 entries).1, none)

/-!
Parallel test runner (`parallel_test_runner.cpp`).
-/

/-- A queued unit of work (`struct TestTask`); the body of
`test_function` is opaque, so its run-time behavior is supplied
separately as a `TaskOutcome`. -/
structure TestTask where
  name : String
  timeout : Nat
deriving DecidableEq

/-- One result per task (`struct TestResult`); `duration` in
milliseconds. -/
structure TestResult where
  test_name : String
  success : Bool
  duration : Nat
  error_message : String
  counterexample : Option String
deriving DecidableEq

/-- What a task's `test_function` does when run: return, throw a
`PBTException` (optionally carrying a counterexample), throw another
`std::exception`, throw something else, or outlive the timeout. -/
inductive TaskOutcome where
  | completed
  | pbtFailure (msg : String) (cx : Option String)
  | stdFailure (msg : String)
  | unknownFailure
  | timedOut
deriving DecidableEq

/-- `ParallelTestRunner::run_test_with_timeout`: the result always carries
the task's name; success and the messages follow the catch chain; on
timeout the auxiliary thread is detached and the fixed message recorded. -/
def run_test_with_timeout (task : TestTask) (outcome : TaskOutcome) (elapsed : Nat) :
    TestResult :=
  match outcome with
  | .completed =>
    { test_name := task.name, success := true, duration := elapsed,
      error_message := "", counterexample := none }
  | .pbtFailure msg cx =>
    { test_name := task.name, success := false, duration := elapsed,
      error_message := msg, counterexample := cx }
  | .stdFailure msg =>
    { test_name := task.name, success := false, duration := elapsed,
      error_message := msg, counterexample := none }
  | .unknownFailure =>
    { test_name := task.name, success := false, duration := elapsed,
      error_message := "Unknown error", counterexample := none }
  | .timedOut =>
    { test_name := task.name, success := false, duration := elapsed,
      error_message := "Test timeout exceeded", counterexample := none }

/-- `ParallelTestRunner::run_all`: drain the pending queue front to back,
submit each task, and collect one result per submitted future, in
submission order. The adaptive-scheduling busy-polls only delay
submission; they drop nothing. `behave` gives each task's outcome and
elapsed time. The defensive catch around `future.get()` is dead code
because `run_test_with_timeout` catches everything, so it is not
modeled. -/
def run_all (pending_tasks : List TestTask) (behave : TestTask → TaskOutcome × Nat) :
    List TestResult :=
  pending_tasks.map (fun t => run_test_with_timeout t (behave t).1 (behave t).2)

/-- Shared state of `ThreadPool` as the workers see it: the stop flag, the
queued task ids (FIFO), and the ids already executed. -/
structure PoolState where
  stopFlag : Bool
  tasks : List Nat
  executed : List Nat
deriving DecidableEq

/-- `ThreadPool::shutdown` sets the stop flag (then wakes and joins the
workers, whose subsequent behavior is `worker_loop`). -/
def shutdown (s : PoolState) : PoolState :=
  { s with stopFlag := true }

/-- `ThreadPool::worker_thread` loop body, iterated: the worker returns
only when the stop flag is set AND the queue is empty; otherwise it pops
the front task and runs it. With the stop flag clear and the queue empty
the worker blocks on the condition variable, modeled as no progress. The
fuel bounds the iteration count; one unit per queued task suffices. -/
def worker_loop : Nat → PoolState → PoolState
  | 0, s => s
  | fuel + 1, s =>
    if s.stopFlag ∧ s.tasks = [] then s
    else
      match s.tasks with
      | [] => s
      | t :: rest =>
        worker_loop fuel { stopFlag := s.stopFlag, tasks := rest, executed := s.executed ++ [t] }

/-- Run the worker loop with enough fuel to drain the current queue. -/
def run_workers (s : PoolState) : PoolState :=
  worker_loop (s.tasks.length + 1) s

/-!
Resource monitor and adaptive resource manager (`resource_monitor.cpp`).
-/

/-- One sampled snapshot (`struct ResourceMetrics`); the percentage fields
are fractions in `[0, 1]` as doubles, modeled as rationals. -/
structure ResourceMetrics where
  cpu_usage_percent : Rat
  memory_usage_percent : Rat
  memory_usage_bytes : Nat
  available_memory_bytes : Nat
  num_threads : Nat
  timestamp : Int
deriving DecidableEq

/-- `ResourceMonitor::add_to_history`: at capacity, erase the front
(oldest) sample, then push the new one. With `history_size = 0` the
source erases from an empty vector, which is undefined behavior in C++;
the model makes that erase a no-op. -/
def add_to_history (history_size : Nat) (history : List ResourceMetrics)
    (metrics : ResourceMetrics) : List ResourceMetrics :=
  (if history_size ≤ history.length then history.drop 1 else history) ++ [metrics]

/-- The history after the monitor loop has appended each sample in turn,
starting from the empty history a fresh monitor holds. -/
def record_samples (history_size : Nat) (samples : List ResourceMetrics) :
    List ResourceMetrics :=
  samples.foldl (add_to_history history_size) []

/-- The last `n` elements of a list. -/
def lastN {α : Type} (n : Nat) (l : List α) : List α :=
  l.drop (l.length - n)

/-- A registered pool as `calculate_optimal_threads` sees it: the value
`get_current_size()` returns plus the two bounds
(`AdaptiveResourceManager::ThreadPoolInfo`). -/
structure ThreadPoolInfo where
  current_size : Nat
  min_threads : Nat
  max_threads : Nat
deriving DecidableEq

/-- The manager knobs `calculate_optimal_threads` reads
(`AdaptiveResourceManager::Config`). -/
structure ManagerConfig where
  target_cpu_usage : Rat
  target_memory_usage : Rat
  adjustment_factor : Rat
deriving DecidableEq

/-- Default manager configuration: 70% CPU target, 60% memory target,
20% adjustment factor. -/
def defaultManagerConfig : ManagerConfig :=
  { target_cpu_usage := 7 / 10, target_memory_usage := 3 / 5, adjustment_factor := 1 / 5 }

/-- `static_cast<size_t>(double)`: truncation toward zero for nonnegative
values; a negative operand is undefined behavior in C++, modeled as 0. -/
def sizeCast (q : Rat) : Nat :=
  q.floor.toNat

/-- `std::clamp(v, lo, hi)` by its defining conditional chain. -/
def clampNat (v lo hi : Nat) : Nat :=
  if v < lo then lo else if hi < v then hi else v

/-- `AdaptiveResourceManager::calculate_optimal_threads`: scale down above
a 1.1 constraint ratio, scale up below 0.9, clamp to the pool bounds, and
suppress adjustments smaller than 2 threads (source names `cpu_ratio`,
`memory_ratio`, `constraint_ratio` are rendered `ratio_cpu`,
`ratio_memory`, `ratio_constraint`). -/
def calculate_optimal_threads (cfg : ManagerConfig) (metrics : ResourceMetrics)
    (pool : ThreadPoolInfo) : Nat :=
  let current_size := pool.current_size
  let ratio_cpu : Rat := metrics.cpu_usage_percent / cfg.target_cpu_usage
  let ratio_memory : Rat := metrics.memory_usage_percent / cfg.target_memory_usage
  let ratio_constraint : Rat := max ratio_cpu ratio_memory
  let optimal_size : Nat :=
    if 11 / 10 < ratio_constraint then
      sizeCast ((current_size : Rat) * (1 - cfg.adjustment_factor * (ratio_constraint - 1)))
    else if ratio_constraint < 9 / 10 then
      sizeCast ((current_size : Rat) * (1 + cfg.adjustment_factor * (1 - ratio_constraint)))
    else
      current_size
  let clamped := clampNat optimal_size pool.min_threads pool.max_threads
  if ((clamped : Int) - (current_size : Int)).natAbs < 2 then current_size else clamped

/-!
Claim C9: store under the default configuration.
-/

/-- C9: the default `Config` sets `default_compression = "zstd"`, but the
constructor registers only the "none" and "gzip" strategies, so every
`store` call fails the strategy lookup and throws the unknown-compression
runtime error, whatever data is passed. -/
theorem C9_default_config_store_always_fails
    (df : Nat → List Nat → List Nat) (inf : List Nat → Option (List Nat))
    (now : Int) (entries : List CounterexampleEntry)
    (test_name property_name counterexample_data error_message : List Nat)
    (metadata : List (List Nat × List Nat)) :
    store (constructorStrategies df inf) defaultDbConfig now entries
        test_name property_name counterexample_data error_message metadata =
      .error "Unknown compression algorithm" := rfl

/-!
Claim C1: one result per task, names preserved.
-/

/-- The result of `run_test_with_timeout` always carries the task's own
name, whatever the outcome. -/
theorem run_test_with_timeout_name (task : TestTask) (o : TaskOutcome) (elapsed : Nat) :
    (run_test_with_timeout task o elapsed).test_name = task.name := by
  cases o <;> rfl

/-- C1: `run_all` returns exactly one `TestResult` per submitted task, and
the multiset of result `test_name`s equals the multiset of submitted task
names. -/
theorem C1_run_all_one_result_per_task (tasks : List TestTask)
    (behave : TestTask → TaskOutcome × Nat) :
    (run_all tasks behave).length = tasks.length ∧
      Multiset.ofList ((run_all tasks behave).map (·.test_name)) =
        Multiset.ofList (tasks.map (·.name)) := by
  refine ⟨by simp [run_all], ?_⟩
  have hmap : (run_all tasks behave).map (·.test_name) = tasks.map (·.name) := by
    simp only [run_all, List.map_map]
    exact List.map_congr_left (fun t _ => run_test_with_timeout_name t (behave t).1 (behave t).2)
  rw [hmap]

/-!
Claim C4: fate of tasks queued at shutdown.
-/

/-- With the stop flag set, the worker loop (given enough fuel) executes
every queued task, front to back, and exits with an empty queue. -/
theorem worker_loop_drains (fuel : Nat) :
    ∀ (tasks executed : List Nat), tasks.length < fuel →
      worker_loop fuel ⟨true, tasks, executed⟩ = ⟨true, [], executed ++ tasks⟩ := by
  induction fuel with
  | zero => intro tasks executed h; omega
  | succ n ih =>
    intro tasks executed h
    cases tasks with
    | nil => simp [worker_loop]
    | cons t rest =>
      have hcond : ¬ ((true : Bool) = true ∧ (t :: rest : List Nat) = []) := by simp
      simp only [worker_loop, hcond, if_false]
      rw [ih rest (executed ++ [t]) (by simpa using Nat.lt_of_succ_lt_succ h)]
      simp

/-- C4 counterexample: a pool whose queue still holds (un-started) task 7
at the moment `shutdown` is called executes task 7 anyway before the
worker exits — queued tasks are not dropped. -/
theorem C4_counterexample_pending_task_runs :
    (run_workers (shutdown ⟨false, [7], []⟩)).executed = [7] := rfl

/-- C4 (amended): after `shutdown()` the workers do not drop the queue —
they first run every task that was still waiting, in FIFO order, and only
then exit, leaving the queue empty. -/
theorem C4_amended_shutdown_drains_queue (s : PoolState) :
    run_workers (shutdown s) = ⟨true, [], s.executed ++ s.tasks⟩ :=
  worker_loop_drains (s.tasks.length + 1) s.tasks s.executed (Nat.lt_succ_self _)

/-!
Claim C8: the metrics history is bounded by `history_size`.
-/

/-- One `add_to_history` step keeps exactly the last `H` samples. -/
theorem add_to_history_lastN (H : Nat) (hH : 1 ≤ H) (l : List ResourceMetrics)
    (m : ResourceMetrics) :
    add_to_history H (lastN H l) m = lastN H (l ++ [m]) := by
  unfold add_to_history lastN
  rcases Nat.lt_or_ge l.length H with hn | hn
  · have h0 : l.length - H = 0 := by omega
    have h1 : (l ++ [m]).length - H = 0 := by simp; omega
    rw [h0, h1, List.drop_zero, List.drop_zero]
    rw [if_neg (by omega : ¬ H ≤ l.length)]
  · have hlen : (l.drop (l.length - H)).length = H := by
      rw [List.length_drop]; omega
    rw [List.length_drop]
    have hcond : H ≤ l.length - (l.length - H) := by omega
    rw [if_pos hcond, List.drop_drop]
    have h2 : (l ++ [m]).length - H = (l.length + 1) - H := by simp
    rw [h2, List.drop_append_of_le_length (by omega)]
    congr 2
    omega

/-- C8: for `history_size ≥ 1`, after any number of appended samples the
retained history is exactly the suffix of the last `history_size` samples
(the oldest evicted first), so its length never exceeds `history_size`.
(`history_size = 0` is excluded: there the source calls `erase` on an
empty vector, which is undefined behavior in C++.) -/
theorem C8_history_bounded (history_size : Nat) (hH : 1 ≤ history_size)
    (samples : List ResourceMetrics) :
    record_samples history_size samples = lastN history_size samples ∧
      (record_samples history_size samples).length ≤ history_size := by
  have key : record_samples history_size samples = lastN history_size samples := by
    unfold record_samples
    induction samples using List.reverseRecOn with
    | nil => simp [lastN]
    | append_singleton l m ih =>
      rw [List.foldl_append, List.foldl_cons, List.foldl_nil, ih]
      exact add_to_history_lastN history_size hH l m
  refine ⟨key, ?_⟩
  rw [key]
  unfold lastN
  rw [List.length_drop]
  omega

/-- A fixed concrete sample used by the C8 witness. -/
def sampleMetrics (k : Nat) : ResourceMetrics :=
  { cpu_usage_percent := 0, memory_usage_percent := 0, memory_usage_bytes := 0,
    available_memory_bytes := 0, num_threads := 0, timestamp := (k : Int) }

/-- C8 witness: five samples into a history of capacity 2 leave exactly
the last two. -/
theorem C8_witness :
    record_samples 2 [sampleMetrics 0, sampleMetrics 1, sampleMetrics 2,
        sampleMetrics 3, sampleMetrics 4] =
      lastN 2 [sampleMetrics 0, sampleMetrics 1, sampleMetrics 2,
        sampleMetrics 3, sampleMetrics 4] ∧
      (record_samples 2 [sampleMetrics 0, sampleMetrics 1, sampleMetrics 2,
        sampleMetrics 3, sampleMetrics 4]).length ≤ 2 :=
  C8_history_bounded 2 (by decide)
    [sampleMetrics 0, sampleMetrics 1, sampleMetrics 2, sampleMetrics 3, sampleMetrics 4]

/-!
Claim C5: `calculate_optimal_threads` at target usage and its bounds.
-/

/-- `std::clamp` lands inside the bounds whenever they are ordered. -/
theorem clampNat_bounds (v lo hi : Nat) (h : lo ≤ hi) :
    lo ≤ clampNat v lo hi ∧ clampNat v lo hi ≤ hi := by
  unfold clampNat
  split_ifs <;> omega

/-- The final clamp-then-hysteresis tail of `calculate_optimal_threads`
stays inside the bounds as long as the current size does. -/
theorem hysteresis_bounds (optimal cur lo hi : Nat) (hlo : lo ≤ cur) (hhi : cur ≤ hi) :
    lo ≤ (if (((clampNat optimal lo hi : Int)) - (cur : Int)).natAbs < 2 then cur
          else clampNat optimal lo hi) ∧
      (if (((clampNat optimal lo hi : Int)) - (cur : Int)).natAbs < 2 then cur
          else clampNat optimal lo hi) ≤ hi := by
  have hc := clampNat_bounds optimal lo hi (hlo.trans hhi)
  split
  · exact ⟨hlo, hhi⟩
  · exact hc

/-- Concrete metrics sitting exactly at the default targets
(cpu 70%, memory 60%). -/
def metricsAtTargets : ResourceMetrics :=
  { cpu_usage_percent := 7 / 10, memory_usage_percent := 3 / 5, memory_usage_bytes := 0,
    available_memory_bytes := 0, num_threads := 0, timestamp := 0 }

/-- A pool whose reported current size (1) sits below its `min_threads`
bound (2). -/
def undersizedPool : ThreadPoolInfo :=
  { current_size := 1, min_threads := 2, max_threads := 8 }

/-- C5 counterexample: with metrics exactly at the targets
(constraint ratio 1.0) and a pool reporting current size 1 with bounds
[2, 8], the hysteresis branch returns the unchanged current size 1, which
lies outside `[min_threads, max_threads]` — so the "always within bounds"
half of the claim is false as stated. -/
theorem C5_counterexample_result_below_min :
    calculate_optimal_threads defaultManagerConfig metricsAtTargets undersizedPool = 1 ∧
      calculate_optimal_threads defaultManagerConfig metricsAtTargets undersizedPool <
        undersizedPool.min_threads := by
  have h1 : metricsAtTargets.cpu_usage_percent / defaultManagerConfig.target_cpu_usage = 1 := by
    norm_num [metricsAtTargets, defaultManagerConfig]
  have h2 : metricsAtTargets.memory_usage_percent /
      defaultManagerConfig.target_memory_usage = 1 := by
    norm_num [metricsAtTargets, defaultManagerConfig]
  have hres : calculate_optimal_threads defaultManagerConfig metricsAtTargets undersizedPool
      = 1 := by
    simp only [calculate_optimal_threads, h1, h2, max_self]
    norm_num [undersizedPool, clampNat]
  exact ⟨hres, by rw [hres]; norm_num [undersizedPool]⟩

/-- C5 (amended): provided the pool's current size already lies inside
`[min_threads, max_threads]`, the result of `calculate_optimal_threads`
always lies inside those bounds, and when both usage readings equal their
(positive) targets the current size is returned unchanged. -/
theorem C5_amended_bounds_and_fixed_point (cfg : ManagerConfig) (metrics : ResourceMetrics)
    (pool : ThreadPoolInfo)
    (hlo : pool.min_threads ≤ pool.current_size)
    (hhi : pool.current_size ≤ pool.max_threads) :
    (pool.min_threads ≤ calculate_optimal_threads cfg metrics pool ∧
      calculate_optimal_threads cfg metrics pool ≤ pool.max_threads) ∧
    (0 < cfg.target_cpu_usage → 0 < cfg.target_memory_usage →
      metrics.cpu_usage_percent = cfg.target_cpu_usage →
      metrics.memory_usage_percent = cfg.target_memory_usage →
      calculate_optimal_threads cfg metrics pool = pool.current_size) := by
  constructor
  · simp only [calculate_optimal_threads]
    exact hysteresis_bounds _ _ _ _ hlo hhi
  · intro hcpupos hmempos hce hme
    have h1 : metrics.cpu_usage_percent / cfg.target_cpu_usage = 1 := by
      rw [hce]; exact div_self (ne_of_gt hcpupos)
    have h2 : metrics.memory_usage_percent / cfg.target_memory_usage = 1 := by
      rw [hme]; exact div_self (ne_of_gt hmempos)
    have hclamp : clampNat pool.current_size pool.min_threads pool.max_threads =
        pool.current_size := by
      unfold clampNat; split_ifs <;> omega
    simp only [calculate_optimal_threads, h1, h2, max_self]
    norm_num [hclamp]

/-- A pool whose current size 4 lies inside its bounds [2, 8]. -/
def withinBoundsPool : ThreadPoolInfo :=
  { current_size := 4, min_threads := 2, max_threads := 8 }

/-- C5 witness: the amended claim instantiated at the default manager
configuration, metrics at the targets, and an in-bounds pool. -/
theorem C5_witness_in_bounds_pool :
    (withinBoundsPool.min_threads ≤
        calculate_optimal_threads defaultManagerConfig metricsAtTargets withinBoundsPool ∧
      calculate_optimal_threads defaultManagerConfig metricsAtTargets withinBoundsPool ≤
        withinBoundsPool.max_threads) ∧
    (0 < defaultManagerConfig.target_cpu_usage →
      0 < defaultManagerConfig.target_memory_usage →
      metricsAtTargets.cpu_usage_percent = defaultManagerConfig.target_cpu_usage →
      metricsAtTargets.memory_usage_percent = defaultManagerConfig.target_memory_usage →
      calculate_optimal_threads defaultManagerConfig metricsAtTargets withinBoundsPool =
        withinBoundsPool.current_size) :=
  C5_amended_bounds_and_fixed_point defaultManagerConfig metricsAtTargets withinBoundsPool
    (by decide) (by decide)

/-!
Claim C2: compression round trips.
-/

/-- A concrete zlib stand-in whose deflate is the identity. -/
def idDeflate : Nat → List Nat → List Nat := fun _ data => data

/-- The matching concrete inflate: wrap the bytes back up. -/
def idInflate : List Nat → Option (List Nat) := fun compressed => some compressed

/-- A byte string of length `2^32`, at which the `uInt` casts in
`GzipCompression` truncate the input handed to zlib to zero bytes. -/
def hugeInput : List Nat := List.replicate (2 ^ 32) 0

/-- The length of the huge input. -/
theorem hugeInput_length : hugeInput.length = 2 ^ 32 := by
  rw [hugeInput, List.length_replicate]

/-- C2 counterexample: even for a zlib whose inflate perfectly inverts its
deflate, the gzip strategy does not round-trip a `2^32`-byte string: the
`static_cast<uInt>(size)` on `avail_in` truncates the input to zero bytes,
so decompress returns the empty string instead of `s`. -/
theorem C2_counterexample_huge_string :
    (∀ lvl data, idInflate (idDeflate lvl data) = some data) ∧
      (gzipStrategy idDeflate idInflate 6).decompress
          ((gzipStrategy idDeflate idInflate 6).compress hugeInput) ≠ some hugeInput := by
  refine ⟨fun _ _ => rfl, ?_⟩
  have hc : (gzipStrategy idDeflate idInflate 6).compress hugeInput = [] := by
    simp only [gzipStrategy]
    rw [hugeInput_length, Nat.mod_self, List.take_zero]
    rfl
  have hd : (gzipStrategy idDeflate idInflate 6).decompress [] = some [] := by
    simp only [gzipStrategy]
    rw [List.take_nil]
    rfl
  rw [hc, hd]
  intro hcontra
  have hsome : ([] : List Nat) = hugeInput := Option.some.inj hcontra
  have hlen := congrArg List.length hsome
  rw [hugeInput_length, List.length_nil] at hlen
  exact absurd hlen.symm (by norm_num)

/-- C2 (amended): for every strategy of the registered family —
`NoCompression`, `GzipCompression`, and the Zstd/Lz4 placeholders that
delegate to gzip — `decompress (compress s) = some s` holds for every
byte string `s` (the empty string included) whose length, and whose
compressed image's length, fit in a `uint32_t`; `NoCompression` needs no
bound, the gzip-backed strategies need both. `df`/`inf` are zlib's
deflate/inflate, assumed to satisfy zlib's documented inversion
contract. -/
theorem C2_amended_roundtrip (df : Nat → List Nat → List Nat)
    (inf : List Nat → Option (List Nat))
    (hz : ∀ lvl data, inf (df lvl data) = some data)
    (lvl : Nat) (s : List Nat) (hs : s.length < 2 ^ 32)
    (hc : ∀ l, (df l s).length < 2 ^ 32)
    (strat : CompressionStrategy)
    (hstrat : strat ∈ [noCompression, gzipStrategy df inf lvl,
      zstdStrategy df inf, lz4Strategy df inf]) :
    strat.decompress (strat.compress s) = some s := by
  have hgz : ∀ l, (gzipStrategy df inf l).decompress ((gzipStrategy df inf l).compress s) =
      some s := by
    intro l
    show inf ((df l (s.take (s.length % 2 ^ 32))).take
        ((df l (s.take (s.length % 2 ^ 32))).length % 2 ^ 32)) = some s
    rw [Nat.mod_eq_of_lt hs, List.take_length, Nat.mod_eq_of_lt (hc l), List.take_length, hz]
  simp only [List.mem_cons, List.not_mem_nil, or_false] at hstrat
  rcases hstrat with rfl | rfl | rfl | rfl
  · rfl
  · exact hgz lvl
  · exact hgz 6
  · exact hgz 6

/-- C2 witness: the amended round trip at the empty string through the
gzip strategy over the concrete identity zlib stand-in. -/
theorem C2_witness_empty_string :
    (gzipStrategy idDeflate idInflate 6).decompress
        ((gzipStrategy idDeflate idInflate 6).compress []) = some [] :=
  C2_amended_roundtrip idDeflate idInflate (fun _ _ => rfl) 6 []
    (by norm_num) (fun _ => by norm_num [idDeflate])
    (gzipStrategy idDeflate idInflate 6) (by simp)

/-!
Claim C6: rejection of corrupt import files.
-/

/-- C6 (amended): a bad magic number or an unsupported version makes
`import_from_file` throw with the database left exactly as it was; that
header check is the only corruption detection the code has. -/
theorem C6_amended_bad_header_rejected (entries : List CounterexampleEntry)
    (file : List Nat)
    (h : (readBytes ⟨file, false⟩ 4).1 ≠ magicPBTC ∨
      (readU32 (readBytes ⟨file, false⟩ 4).2).1 ≠ 1) :
    (import_from_file entries file).1 = entries ∧
      (import_from_file entries file).2 ≠ none := by
  simp only [import_from_file]
  by_cases hmagic : (readBytes ⟨file, false⟩ 4).1 = magicPBTC
  · rcases h with h | h
    · exact absurd hmagic h
    · rw [if_neg (not_not_intro hmagic), if_pos h]
      exact ⟨rfl, by simp⟩
  · rw [if_pos hmagic]
    exact ⟨rfl, by simp⟩

/-- C6 witness: the 4-byte file "XBAD" is rejected with the database
unchanged. -/
theorem C6_witness_xbad_file :
    (import_from_file [] [88, 66, 65, 68]).1 = [] ∧
      (import_from_file [] [88, 66, 65, 68]).2 ≠ none :=
  C6_amended_bad_header_rejected [] [88, 66, 65, 68] (Or.inl (by decide))

/-- A small concrete entry whose encoding seeds the truncated file. -/
def smallEntry : CounterexampleEntry :=
  { test_name := [65], property_name := [66], compressed_data := [67], error_message := [],
    timestamp := 0, original_size := 1, compressed_size := 1,
    compression_algorithm := nameNone, metadata := [] }

/-- A corrupt import file: valid magic and version, an entry count of 2,
but only one entry's bytes actually present — the file is truncated. -/
def truncatedFile : List Nat :=
  magicPBTC ++ encodeU32 1 ++ encodeU32 2 ++ encodeEntry smallEntry

/-- C6 counterexample: importing the truncated file raises no error at all
and leaves the database changed (the readable entry, plus a junk entry
decoded from the failed stream, were appended) — so "every corrupt file
raises a runtime error and leaves the entry list unchanged" is false as
stated. -/
theorem C6_counterexample_truncated_file_partially_imported :
    (import_from_file [] truncatedFile).2 = none ∧
      (import_from_file [] truncatedFile).1 ≠ [] := by
  decide

/-!
Claim C10: import appends to the existing entries.
-/

/-- The import loop only pushes onto its accumulator: entries already in
the database stay in front, untouched. -/
theorem readEntriesInto_append (n : Nat) :
    ∀ (s : ByteStream) (acc : List CounterexampleEntry),
      readEntriesInto n s acc =
        (acc ++ (readEntriesInto n s []).1, (readEntriesInto n s []).2) := by
  induction n with
  | zero => intro s acc; simp [readEntriesInto]
  | succ k ih =>
    intro s acc
    simp only [readEntriesInto]
    rw [ih (readEntry s).2 (acc ++ [(readEntry s).1]),
      ih (readEntry s).2 ([] ++ [(readEntry s).1])]
    simp

/-- C10: a successful `import_from_file` appends the file's entries after
the database's existing ones — every prior entry is still present,
unchanged and in place, and the imported entries are exactly what
importing into a fresh database would produce. -/
theorem C10_import_appends_to_existing (entries : List CounterexampleEntry)
    (file : List Nat)
    (hok : (import_from_file entries file).2 = none) :
    (import_from_file entries file).1 = entries ++ (import_from_file [] file).1 := by
  simp only [import_from_file] at hok ⊢
  by_cases hmagic : (readBytes ⟨file, false⟩ 4).1 = magicPBTC
  · have hnn : ¬ ((readBytes ⟨file, false⟩ 4).1 ≠ magicPBTC) := not_not_intro hmagic
    rw [if_neg hnn] at hok
    rw [if_neg hnn, if_neg hnn]
    by_cases hv : (readU32 (readBytes ⟨file, false⟩ 4).2).1 = 1
    · have hvn : ¬ ((readU32 (readBytes ⟨file, false⟩ 4).2).1 ≠ 1) := not_not_intro hv
      rw [if_neg hvn, if_neg hvn]
      rw [readEntriesInto_append]
    · rw [if_pos hv] at hok
      exact absurd hok (by simp)
  · rw [if_pos hmagic] at hok
    exact absurd hok (by simp)

/-- A pre-existing entry for the C10 witness database. -/
def priorEntry : CounterexampleEntry :=
  { test_name := [80], property_name := [81], compressed_data := [82], error_message := [],
    timestamp := 5, original_size := 1, compressed_size := 1,
    compression_algorithm := nameNone, metadata := [] }

/-- A well-formed export file holding zero entries. -/
def emptyExportFile : List Nat := magicPBTC ++ encodeU32 1 ++ encodeU32 0

/-- C10 witness: importing a valid (empty) export file into a database
holding one entry keeps that entry in front. -/
theorem C10_witness_empty_file :
    (import_from_file [priorEntry] emptyExportFile).1 =
      [priorEntry] ++ (import_from_file [] emptyExportFile).1 :=
  C10_import_appends_to_existing [priorEntry] emptyExportFile (by decide)

/-!
Claim C7: export/import round trip.
-/

/-- Reading exactly the bytes of a known leading chunk consumes it and
leaves the rest. -/
theorem readBytes_exact (chunk rest : List Nat) :
    readBytes ⟨chunk ++ rest, false⟩ chunk.length = (chunk, ⟨rest, false⟩) := by
  simp only [readBytes]
  rw [if_neg (by simp), if_pos (by simp)]
  rw [List.take_left, List.drop_left]

/-- Little-endian digit reconstruction for 32-bit values. -/
theorem decodeU32_encodeU32 (n : Nat) : decodeU32 (encodeU32 n) = n % 2 ^ 32 := by
  show n % 256 + 256 * (n / 256 % 256) + 256 ^ 2 * (n / 256 ^ 2 % 256) +
      256 ^ 3 * (n / 256 ^ 3 % 256) = n % 2 ^ 32
  have h2 : (256 : Nat) ^ 2 = 65536 := by norm_num
  have h3 : (256 : Nat) ^ 3 = 16777216 := by norm_num
  have h32 : (2 : Nat) ^ 32 = 4294967296 := by norm_num
  rw [h2, h3, h32]
  omega

/-- Reading back an encoded `uint32_t` yields the truncated value and
consumes exactly four bytes. -/
theorem readU32_exact (n : Nat) (rest : List Nat) :
    readU32 ⟨encodeU32 n ++ rest, false⟩ = (n % 2 ^ 32, ⟨rest, false⟩) := by
  unfold readU32
  have h4 : (encodeU32 n).length = 4 := rfl
  rw [← h4, readBytes_exact]
  dsimp only
  rw [decodeU32_encodeU32]

/-- Reading back an encoded `uint64_t` consumes exactly eight bytes. -/
theorem readU64_exact (v : Nat) (rest : List Nat) :
    readU64 ⟨encodeU64 v ++ rest, false⟩ = (decodeU64 (encodeU64 v), ⟨rest, false⟩) := by
  unfold readU64
  have h8 : (encodeU64 v).length = 8 := rfl
  rw [← h8, readBytes_exact]

/-- Reading back an encoded `int64_t` consumes exactly eight bytes. -/
theorem readI64_exact (t : Int) (rest : List Nat) :
    readI64 ⟨encodeI64 t ++ rest, false⟩ = (decodeI64 (encodeI64 t), ⟨rest, false⟩) := by
  unfold readI64
  have h8 : (encodeI64 t).length = 8 := rfl
  rw [← h8, readBytes_exact]

/-- A length-prefixed field whose length fits a `uint32_t` round-trips
exactly. -/
theorem readField_exact (l : List Nat) (hl : l.length < 2 ^ 32) (rest : List Nat) :
    readField ⟨encodeField l ++ rest, false⟩ = (l, ⟨rest, false⟩) := by
  unfold readField encodeField
  rw [Nat.mod_eq_of_lt hl, List.take_length, List.append_assoc, readU32_exact]
  dsimp only
  rw [Nat.mod_eq_of_lt hl]
  exact readBytes_exact l rest

/-- The entry a round trip through the container reproduces: the four
string fields and the algorithm are kept verbatim; the timestamp and the
two sizes go through their integer encodings; `metadata` is dropped. -/
def reimport (e : CounterexampleEntry) : CounterexampleEntry :=
  { test_name := e.test_name
    property_name := e.property_name
    compressed_data := e.compressed_data
    error_message := e.error_message
    timestamp := decodeI64 (encodeI64 e.timestamp)
    original_size := decodeU64 (encodeU64 e.original_size)
    compressed_size := decodeU64 (encodeU64 e.compressed_size)
    compression_algorithm := e.compression_algorithm
    metadata := [] }

/-- All five length-prefixed string fields of an entry fit a `uint32_t`
length. -/
def FieldsFit (e : CounterexampleEntry) : Prop :=
  e.test_name.length < 2 ^ 32 ∧ e.property_name.length < 2 ^ 32 ∧
    e.compressed_data.length < 2 ^ 32 ∧ e.error_message.length < 2 ^ 32 ∧
    e.compression_algorithm.length < 2 ^ 32

instance (e : CounterexampleEntry) : Decidable (FieldsFit e) := by
  unfold FieldsFit
  infer_instance

/-- One encoded entry parses back to its `reimport` and consumes exactly
its own bytes. -/
theorem readEntry_exact (e : CounterexampleEntry) (he : FieldsFit e) (rest : List Nat) :
    readEntry ⟨encodeEntry e ++ rest, false⟩ = (reimport e, ⟨rest, false⟩) := by
  obtain ⟨h1, h2, h3, h4, h5⟩ := he
  simp only [readEntry, encodeEntry, List.append_assoc]
  rw [readField_exact e.test_name h1]
  dsimp only
  rw [readField_exact e.property_name h2]
  dsimp only
  rw [readField_exact e.compressed_data h3]
  dsimp only
  rw [readField_exact e.error_message h4]
  dsimp only
  rw [readI64_exact e.timestamp]
  dsimp only
  rw [readU64_exact e.original_size]
  dsimp only
  rw [readU64_exact e.compressed_size]
  dsimp only
  rw [readField_exact e.compression_algorithm h5]
  dsimp only
  rfl

/-- Parsing as many entries as were encoded reproduces their `reimport`s
in order. -/
theorem readEntriesInto_exact (es : List CounterexampleEntry)
    (hes : ∀ e ∈ es, FieldsFit e) :
    ∀ (rest : List Nat) (acc : List CounterexampleEntry),
      readEntriesInto es.length ⟨encodeEntries es ++ rest, false⟩ acc =
        (acc ++ es.map reimport, ⟨rest, false⟩) := by
  induction es with
  | nil => intro rest acc; simp [readEntriesInto, encodeEntries]
  | cons e tail ih =>
    intro rest acc
    simp only [List.length_cons, readEntriesInto, encodeEntries, List.append_assoc]
    rw [readEntry_exact e (hes e (by simp))]
    dsimp only
    rw [ih (fun x hx => hes x (by simp [hx])) rest (acc ++ [reimport e])]
    simp

/-- Full round trip: exporting any database whose entry count and string
fields fit `uint32_t` and importing the file into a fresh database throws
nothing and reproduces the entries' `reimport`s in order. -/
theorem import_export_exact (entries : List CounterexampleEntry)
    (hcount : entries.length < 2 ^ 32) (hfields : ∀ e ∈ entries, FieldsFit e) :
    import_from_file [] (export_to_file entries) = (entries.map reimport, none) := by
  simp only [import_from_file, export_to_file, List.append_assoc]
  have hm : (magicPBTC).length = 4 := rfl
  rw [← hm, readBytes_exact]
  dsimp only
  rw [if_neg (by simp)]
  rw [readU32_exact]
  dsimp only
  rw [if_neg (by norm_num)]
  rw [readU32_exact]
  dsimp only
  rw [Nat.mod_eq_of_lt hcount]
  rw [← List.append_nil (encodeEntries entries), readEntriesInto_exact entries hfields [] []]
  simp

/-- The four-field key the C7 claim compares:
`(test_name, property_name, compressed_data, compression_algorithm)`. -/
def entryKey (e : CounterexampleEntry) : List Nat × List Nat × List Nat × List Nat :=
  (e.test_name, e.property_name, e.compressed_data, e.compression_algorithm)

/-- C7 (amended): for every database state whose entry count and string
field lengths are below `2^32`, `export_to_file` then `import_from_file`
into a fresh database succeeds and reproduces the multiset (in fact the
exact sequence) of `(test_name, property_name, compressed_data,
compression_algorithm)` tuples. -/
theorem C7_amended_export_import_keys (entries : List CounterexampleEntry)
    (hcount : entries.length < 2 ^ 32) (hfields : ∀ e ∈ entries, FieldsFit e) :
    (import_from_file [] (export_to_file entries)).2 = none ∧
      Multiset.ofList ((import_from_file [] (export_to_file entries)).1.map entryKey) =
        Multiset.ofList (entries.map entryKey) := by
  rw [import_export_exact entries hcount hfields]
  refine ⟨rfl, ?_⟩
  congr 1
  rw [List.map_map]
  exact List.map_congr_left (fun e _ => rfl)

/-- A concrete well-formed entry for the C7 witness. -/
def roundtripEntry : CounterexampleEntry :=
  { test_name := [84], property_name := [85], compressed_data := [86, 87],
    error_message := [88], timestamp := 1234, original_size := 2, compressed_size := 2,
    compression_algorithm := nameGzip, metadata := [([1], [2])] }

/-- C7 witness: the amended round trip at a one-entry database. -/
theorem C7_witness_single_entry :
    (import_from_file [] (export_to_file [roundtripEntry])).2 = none ∧
      Multiset.ofList ((import_from_file [] (export_to_file [roundtripEntry])).1.map entryKey) =
        Multiset.ofList ([roundtripEntry].map entryKey) :=
  C7_amended_export_import_keys [roundtripEntry] (by norm_num)
    (fun e he => by
      rw [List.mem_singleton.mp he]
      decide)

/-- A database entry whose test name is `2^32` bytes of 'A' — the length
the export format's `uint32_t` cast truncates to zero. -/
def bigEntry : CounterexampleEntry :=
  { test_name := List.replicate (2 ^ 32) 65, property_name := [66], compressed_data := [67],
    error_message := [], timestamp := 0, original_size := 1, compressed_size := 1,
    compression_algorithm := nameNone, metadata := [] }

/-- The same entry with the empty test name writing the identical bytes. -/
def bigEntryTruncated : CounterexampleEntry :=
  { test_name := [], property_name := [66], compressed_data := [67],
    error_message := [], timestamp := 0, original_size := 1, compressed_size := 1,
    compression_algorithm := nameNone, metadata := [] }

/-- The `2^32`-byte field encodes as the same four zero length bytes as
the empty field: the cast truncates the length and no data bytes follow. -/
theorem encodeField_big :
    encodeField (List.replicate (2 ^ 32) (65 : Nat)) = encodeField [] := by
  unfold encodeField
  rw [List.length_replicate, Nat.mod_self, List.take_zero]
  norm_num [encodeU32]

/-- Exporting the huge-named entry writes the same file as exporting its
empty-named twin. -/
theorem export_big_eq : export_to_file [bigEntry] = export_to_file [bigEntryTruncated] := by
  unfold export_to_file encodeEntries encodeEntry
  have ht : bigEntry.test_name = List.replicate (2 ^ 32) (65 : Nat) := rfl
  have ht2 : bigEntryTruncated.test_name = ([] : List Nat) := rfl
  rw [ht, ht2, encodeField_big]
  rfl

/-- C7 counterexample: the round trip does not reproduce the key multiset
of a database holding the huge-named entry — the `static_cast<uint32_t>`
on the string length writes a zero-length name, and the reimported entry
carries an empty `test_name`. -/
theorem C7_counterexample_huge_name :
    Multiset.ofList ((import_from_file [] (export_to_file [bigEntry])).1.map entryKey) ≠
      Multiset.ofList ([bigEntry].map entryKey) := by
  intro hcontra
  rw [export_big_eq] at hcontra
  rw [import_export_exact [bigEntryTruncated] (by norm_num)
    (fun e he => by rw [List.mem_singleton.mp he]; decide)] at hcontra
  simp only [List.map_cons, List.map_nil] at hcontra
  have hx : entryKey (reimport bigEntryTruncated) = entryKey bigEntry := by
    have hl : [entryKey (reimport bigEntryTruncated)] = [entryKey bigEntry] :=
      List.perm_singleton.mp (Multiset.coe_eq_coe.mp hcontra)
    simp only [List.cons.injEq, and_true] at hl
    exact hl
  have h1 : ([] : List Nat) = List.replicate (2 ^ 32) (65 : Nat) :=
    congrArg (fun p => p.1) hx
  have h2 := congrArg List.length h1
  rw [List.length_nil, List.length_replicate] at h2
  exact absurd h2.symm (by norm_num)

/-!
Claim C3: per-test entry limit keeps the K newest entries.
-/

/-- The entry one `store` call appends for an item `(now, data)` (with the
"none" strategy the compressed bytes are the data itself). -/
def mkStoredEntry (cfg : DbConfig) (name prop err : List Nat) (item : Int × List Nat) :
    CounterexampleEntry :=
  { test_name := name
    property_name := prop
    compressed_data := item.2
    error_message := err
    timestamp := item.1
    original_size := item.2.length
    compressed_size := item.2.length
    compression_algorithm := cfg.default_compression
    metadata := [] }

/-- A sequence of `store` calls for one test and property name, one call
per `(now, data)` item, threading the entry list through. -/
def store_sequence (reg : List (List Nat × CompressionStrategy)) (cfg : DbConfig)
    (name prop err : List Nat) :
    List (Int × List Nat) → List CounterexampleEntry →
      Except String (List CounterexampleEntry)
  | [], entries => .ok entries
  | item :: rest, entries =>
    match store reg cfg item.1 entries name prop item.2 err [] with
    | .error msg => .error msg
    | .ok entries1 => store_sequence reg cfg name prop err rest entries1

/-- Inserting an entry older than everything in a list sends it to the
back. -/
theorem insertByTimestampDesc_min (e : CounterexampleEntry) :
    ∀ (l : List CounterexampleEntry), (∀ x ∈ l, e.timestamp < x.timestamp) →
      insertByTimestampDesc e l = l ++ [e] := by
  intro l
  induction l with
  | nil => intro _; rfl
  | cons x xs ih =>
    intro h
    have hx : e.timestamp < x.timestamp := h x (by simp)
    simp only [insertByTimestampDesc]
    rw [if_neg (by omega), ih (fun y hy => h y (by simp [hy]))]
    simp

/-- Sorting a strictly ascending (by timestamp) list with the descending
comparator reverses it. -/
theorem sortByTimestampDesc_ascending :
    ∀ (l : List CounterexampleEntry),
      l.Pairwise (fun a b => a.timestamp < b.timestamp) →
      sortByTimestampDesc l = l.reverse := by
  intro l
  induction l with
  | nil => intro _; rfl
  | cons x xs ih =>
    intro hp
    rw [List.pairwise_cons] at hp
    simp only [sortByTimestampDesc]
    rw [ih hp.2, insertByTimestampDesc_min x xs.reverse
      (fun y hy => hp.1 y (List.mem_reverse.mp hy)), List.reverse_cons]

/-- Filtering for a test name every entry carries keeps everything. -/
theorem query_by_test_all (entries : List CounterexampleEntry) (name : List Nat)
    (h : ∀ e ∈ entries, e.test_name = name) :
    query_by_test entries name = entries := by
  unfold query_by_test
  apply List.filter_eq_self.mpr
  intro a ha
  exact decide_eq_true (h a ha)

/-- No entry inside the retention window is purged. -/
theorem cleanup_old_entries_noop (cfg : DbConfig) (now : Int)
    (entries : List CounterexampleEntry)
    (h : ∀ e ∈ entries, now - cfg.retention_period_ms ≤ e.timestamp) :
    cleanup_old_entries cfg now entries = entries := by
  unfold cleanup_old_entries
  apply List.filter_eq_self.mpr
  intro a ha
  exact decide_eq_true (h a ha)

/-- `dedup` of a nonempty constant list is the one-element list. -/
theorem dedup_const {α : Type} [DecidableEq α] (a : α) :
    ∀ (l : List α), l ≠ [] → (∀ x ∈ l, x = a) → l.dedup = [a] := by
  intro l
  induction l with
  | nil => intro h _; exact absurd rfl h
  | cons x xs ih =>
    intro _ hall
    have hx : x = a := hall x (by simp)
    subst hx
    cases xs with
    | nil => simp
    | cons y ys =>
      have hy : y = x := hall y (by simp)
      have hmem : x ∈ y :: ys := by simp [hy]
      rw [List.dedup_cons_of_mem hmem]
      exact ih (by simp) (fun z hz => hall z (by simp [hz]))

/-- Dropping entries cannot grow the summed compressed size. -/
theorem sublist_sum_le : ∀ {l₁ l₂ : List Nat}, l₁.Sublist l₂ → l₁.sum ≤ l₂.sum := by
  intro l₁ l₂ h
  induction h with
  | slnil => exact Nat.le_refl 0
  | cons a _ ih =>
    simp only [List.sum_cons]
    omega
  | cons₂ a _ ih =>
    simp only [List.sum_cons]
    omega

/-- The size-limit sweep does nothing when the total already fits. -/
theorem enforceTotalSize_noop (maxBytes : Nat) (entries : List CounterexampleEntry)
    (h : total_size entries ≤ maxBytes) :
    enforceTotalSize maxBytes entries = entries := by
  unfold enforceTotalSize
  rw [dif_neg]
  intro hc
  exact absurd hc.1 (Nat.not_lt.mpr h)

/-- Membership in a `lastN` suffix is membership in the list. -/
theorem mem_lastN {α : Type} {x : α} {n : Nat} {l : List α} (h : x ∈ lastN n l) : x ∈ l := by
  unfold lastN at h
  exact List.drop_subset _ _ h

/-- The length of a `lastN` suffix. -/
theorem lastN_length {α : Type} (n : Nat) (l : List α) :
    (lastN n l).length = l.length - (l.length - n) := by
  unfold lastN
  exact List.length_drop _ _

/-- `lastN` keeps a short list whole. -/
theorem lastN_of_le {α : Type} {n : Nat} {l : List α} (h : l.length ≤ n) : lastN n l = l := by
  unfold lastN
  rw [Nat.sub_eq_zero_of_le h, List.drop_zero]

/-- A `lastN` suffix is a sublist. -/
theorem lastN_sublist {α : Type} (n : Nat) (l : List α) : (lastN n l).Sublist l := by
  unfold lastN
  exact List.drop_sublist _ _

/-- Summed compressed size distributes over append. -/
theorem total_size_append (l1 l2 : List CounterexampleEntry) :
    total_size (l1 ++ l2) = total_size l1 + total_size l2 := by
  simp [total_size]

/-- Summed compressed size never grows along a sublist. -/
theorem total_size_sublist {l1 l2 : List CounterexampleEntry} (h : l1.Sublist l2) :
    total_size l1 ≤ total_size l2 :=
  sublist_sum_le (h.map _)

/-- The stored entries of a "none"-compressed item list weigh exactly the
items' data lengths. -/
theorem total_size_map_mk (cfg : DbConfig) (name prop err : List Nat)
    (l : List (Int × List Nat)) :
    total_size (l.map (mkStoredEntry cfg name prop err)) =
      (l.map (fun p => p.2.length)).sum := by
  unfold total_size
  rw [List.map_map]
  rfl

/-- The pending entry list after one append — the kept suffix plus the new
entry — is strictly ascending by timestamp when the item sequence is. -/
theorem kept_entries_pairwise (cfg : DbConfig) (name prop err : List Nat)
    (done : List (Int × List Nat)) (item : Int × List Nat)
    (hmono : (done ++ [item]).Pairwise (fun p q => p.1 < q.1)) :
    (lastN cfg.max_entries_per_test (done.map (mkStoredEntry cfg name prop err)) ++
        [mkStoredEntry cfg name prop err item]).Pairwise
      (fun a b => a.timestamp < b.timestamp) := by
  rw [List.pairwise_append]
  refine ⟨?_, by simp, ?_⟩
  · have h1 : done.Pairwise (fun p q => p.1 < q.1) := (List.pairwise_append.mp hmono).1
    have h2 : (done.map (mkStoredEntry cfg name prop err)).Pairwise
        (fun a b => a.timestamp < b.timestamp) := by
      rw [List.pairwise_map]
      exact h1
    exact h2.sublist (lastN_sublist _ _)
  · intro a ha b hb
    rw [List.mem_singleton] at hb
    subst hb
    rcases List.mem_map.mp (mem_lastN ha) with ⟨p, hp, rfl⟩
    show p.1 < item.1
    exact (List.pairwise_append.mp hmono).2.2 p hp item (by simp)

/-- The retention purge inside one `store` keeps everything when every
item of the run lies within the retention window of the newest. -/
theorem cleanup_after_append (cfg : DbConfig) (name prop err : List Nat)
    (done : List (Int × List Nat)) (item : Int × List Nat)
    (hret : ∀ p ∈ done ++ [item], item.1 - p.1 ≤ cfg.retention_period_ms) :
    cleanup_old_entries cfg item.1
        (lastN cfg.max_entries_per_test (done.map (mkStoredEntry cfg name prop err)) ++
          [mkStoredEntry cfg name prop err item]) =
      lastN cfg.max_entries_per_test (done.map (mkStoredEntry cfg name prop err)) ++
        [mkStoredEntry cfg name prop err item] := by
  apply cleanup_old_entries_noop
  intro e he
  rcases List.mem_append.mp he with he | he
  · rcases List.mem_map.mp (mem_lastN he) with ⟨p, hp, rfl⟩
    have := hret p (List.mem_append_left _ hp)
    show item.1 - cfg.retention_period_ms ≤ p.1
    omega
  · rw [List.mem_singleton] at he
    subst he
    have := hret item (by simp)
    show item.1 - cfg.retention_period_ms ≤ item.1
    omega

/-- `lastN 0` is empty. -/
theorem lastN_zero {α : Type} (l : List α) : lastN 0 l = [] := by
  unfold lastN
  rw [Nat.sub_zero, List.drop_length]

/-- Core of the C3 invariant: appending the newest entry to the kept
suffix of `max_entries_per_test` entries and running
`enforce_size_limits` leaves exactly the suffix of the now-newest
`max_entries_per_test` entries — the oldest is evicted, nothing else. -/
theorem enforce_after_append (cfg : DbConfig) (name prop err : List Nat)
    (done : List (Int × List Nat)) (item : Int × List Nat)
    (hmono : (done ++ [item]).Pairwise (fun p q => p.1 < q.1))
    (hsize : ((done ++ [item]).map (fun p => p.2.length)).sum ≤
      cfg.max_database_size_mb * 1024 * 1024) :
    enforce_size_limits cfg
        (lastN cfg.max_entries_per_test (done.map (mkStoredEntry cfg name prop err)) ++
          [mkStoredEntry cfg name prop err item]) =
      lastN cfg.max_entries_per_test
        ((done ++ [item]).map (mkStoredEntry cfg name prop err)) := by
  have hall : ∀ e ∈ lastN cfg.max_entries_per_test
      (done.map (mkStoredEntry cfg name prop err)) ++ [mkStoredEntry cfg name prop err item],
      e.test_name = name := by
    intro e he
    rcases List.mem_append.mp he with he | he
    · rcases List.mem_map.mp (mem_lastN he) with ⟨p, _, rfl⟩
      rfl
    · rw [List.mem_singleton] at he
      subst he
      rfl
  have hts : total_size
      (lastN cfg.max_entries_per_test (done.map (mkStoredEntry cfg name prop err)) ++
        [mkStoredEntry cfg name prop err item]) ≤ cfg.max_database_size_mb * 1024 * 1024 := by
    rw [total_size_append]
    have h1 : total_size
        (lastN cfg.max_entries_per_test (done.map (mkStoredEntry cfg name prop err))) ≤
        total_size (done.map (mkStoredEntry cfg name prop err)) :=
      total_size_sublist (lastN_sublist _ _)
    rw [total_size_map_mk] at h1
    have h2 : total_size [mkStoredEntry cfg name prop err item] = item.2.length := by
      simp [total_size, mkStoredEntry]
    rw [h2]
    rw [List.map_append, List.sum_append] at hsize
    simp only [List.map_cons, List.map_nil, List.sum_cons, List.sum_nil] at hsize
    omega
  have hnames : test_names
      (lastN cfg.max_entries_per_test (done.map (mkStoredEntry cfg name prop err)) ++
        [mkStoredEntry cfg name prop err item]) = [name] := by
    unfold test_names
    apply dedup_const
    · simp
    · intro x hx
      rcases List.mem_map.mp hx with ⟨e, he, rfl⟩
      exact hall e he
  have hq := query_by_test_all _ name hall
  unfold enforce_size_limits
  rw [hnames, List.foldl_cons, List.foldl_nil]
  simp only [enforce_test_limit]
  rw [hq]
  by_cases hK : done.length < cfg.max_entries_per_test
  · have hcur : lastN cfg.max_entries_per_test (done.map (mkStoredEntry cfg name prop err)) =
        done.map (mkStoredEntry cfg name prop err) :=
      lastN_of_le (by rw [List.length_map]; omega)
    have htarget : lastN cfg.max_entries_per_test
        ((done ++ [item]).map (mkStoredEntry cfg name prop err)) =
        (done ++ [item]).map (mkStoredEntry cfg name prop err) :=
      lastN_of_le (by rw [List.length_map, List.length_append]; simp; omega)
    rw [if_neg (by rw [List.length_append, hcur, List.length_map]; simp; omega)]
    rw [enforceTotalSize_noop _ _ hts, hcur, htarget, List.map_append]
    simp
  · have hKdl : cfg.max_entries_per_test ≤ done.length := Nat.not_lt.mp hK
    have hcurlen : (lastN cfg.max_entries_per_test
        (done.map (mkStoredEntry cfg name prop err))).length = cfg.max_entries_per_test := by
      rw [lastN_length, List.length_map]
      omega
    have hgen : (done.map (mkStoredEntry cfg name prop err)).drop
        (done.length - cfg.max_entries_per_test) =
        lastN cfg.max_entries_per_test (done.map (mkStoredEntry cfg name prop err)) := by
      unfold lastN
      rw [List.length_map]
    rw [if_pos (by rw [List.length_append, hcurlen]; simp)]
    rw [sortByTimestampDesc_ascending _
      (kept_entries_pairwise cfg name prop err done item hmono)]
    rcases hcase : lastN cfg.max_entries_per_test
        (done.map (mkStoredEntry cfg name prop err)) with _ | ⟨c0, ct⟩
    · -- max_entries_per_test = 0: the single appended entry is evicted again
      rw [hcase] at hts hcurlen
      simp only [List.nil_append] at hts ⊢
      have hK0 : cfg.max_entries_per_test = 0 := by simpa using hcurlen.symm
      rw [hK0]
      rw [List.drop_zero, List.reverse_cons, List.reverse_nil, List.nil_append,
        List.foldl_cons, List.foldl_nil]
      have herase : erase_first_match [mkStoredEntry cfg name prop err item]
          (mkStoredEntry cfg name prop err item).test_name
          (mkStoredEntry cfg name prop err item).timestamp = [] := by
        unfold erase_first_match
        exact List.eraseP_cons_of_pos (decide_eq_true ⟨rfl, rfl⟩)
      rw [herase, enforceTotalSize_noop _ _ (by simp [total_size]), lastN_zero]
    · -- max_entries_per_test ≥ 1: the oldest kept entry is evicted
      rw [hcase] at hts hcurlen hgen
      simp only [List.length_cons] at hcurlen
      have hK1 : 1 ≤ cfg.max_entries_per_test := by omega
      have hrv : ((c0 :: ct) ++ [mkStoredEntry cfg name prop err item]).reverse =
          ((ct ++ [mkStoredEntry cfg name prop err item]).reverse) ++ [c0] := by
        rw [List.cons_append, List.reverse_cons]
      have hdlen : ((ct ++ [mkStoredEntry cfg name prop err item]).reverse).length =
          cfg.max_entries_per_test := by
        rw [List.length_reverse, List.length_append]
        simp
        omega
      rw [hrv, ← hdlen, List.drop_left, hdlen]
      rw [List.foldl_cons, List.foldl_nil]
      have herase : erase_first_match ((c0 :: ct) ++ [mkStoredEntry cfg name prop err item])
          c0.test_name c0.timestamp = ct ++ [mkStoredEntry cfg name prop err item] := by
        rw [List.cons_append]
        unfold erase_first_match
        exact List.eraseP_cons_of_pos (decide_eq_true ⟨rfl, rfl⟩)
      rw [herase]
      have hts2 : total_size (ct ++ [mkStoredEntry cfg name prop err item]) ≤
          cfg.max_database_size_mb * 1024 * 1024 := by
        refine le_trans (total_size_sublist ?_) hts
        rw [List.cons_append]
        exact List.sublist_cons_self _ _
      rw [enforceTotalSize_noop _ _ hts2]
      -- the kept list is exactly the target suffix
      unfold lastN
      have hidx : (List.map (mkStoredEntry cfg name prop err) done ++
          [mkStoredEntry cfg name prop err item]).length - cfg.max_entries_per_test =
          (done.length - cfg.max_entries_per_test) + 1 := by
        rw [List.length_append, List.length_map]
        simp
        omega
      rw [List.map_append]
      simp only [List.map_cons, List.map_nil]
      rw [hidx]
      rw [List.drop_append_of_le_length (by rw [List.length_map]; omega)]
      rw [← List.drop_drop, hgen]
      rfl

/-- One `store` call on the kept suffix: compression succeeds via the
"none" strategy, the retention purge keeps everything, and the size
enforcement leaves the new suffix of the newest entries. -/
theorem store_step (df : Nat → List Nat → List Nat) (inf : List Nat → Option (List Nat))
    (cfg : DbConfig) (hauto : cfg.auto_cleanup = true)
    (hcomp : cfg.default_compression = nameNone)
    (name prop err : List Nat)
    (done : List (Int × List Nat)) (item : Int × List Nat)
    (hmono : (done ++ [item]).Pairwise (fun p q => p.1 < q.1))
    (hret : ∀ p ∈ done ++ [item], item.1 - p.1 ≤ cfg.retention_period_ms)
    (hsize : ((done ++ [item]).map (fun p => p.2.length)).sum ≤
      cfg.max_database_size_mb * 1024 * 1024) :
    store (constructorStrategies df inf) cfg item.1
        (lastN cfg.max_entries_per_test (done.map (mkStoredEntry cfg name prop err)))
        name prop item.2 err [] =
      .ok (lastN cfg.max_entries_per_test
        ((done ++ [item]).map (mkStoredEntry cfg name prop err))) := by
  have hfind : findStrategy (constructorStrategies df inf) cfg.default_compression =
      some noCompression := by
    rw [hcomp]
    rfl
  simp only [store, compress_data, hfind, noCompression, hauto, if_true]
  show Except.ok (enforce_size_limits cfg (cleanup_old_entries cfg item.1
      (lastN cfg.max_entries_per_test (done.map (mkStoredEntry cfg name prop err)) ++
        [mkStoredEntry cfg name prop err item]))) =
    Except.ok (lastN cfg.max_entries_per_test
      ((done ++ [item]).map (mkStoredEntry cfg name prop err)))
  rw [cleanup_after_append cfg name prop err done item hret,
    enforce_after_append cfg name prop err done item hmono hsize]

/-- Invariant of the C3 store run: after processing any prefix, the
database holds exactly the suffix of the newest `max_entries_per_test`
stored entries; the remaining items extend it the same way. -/
theorem store_sequence_inv (df : Nat → List Nat → List Nat)
    (inf : List Nat → Option (List Nat)) (cfg : DbConfig)
    (hauto : cfg.auto_cleanup = true) (hcomp : cfg.default_compression = nameNone)
    (name prop err : List Nat) :
    ∀ (rest done : List (Int × List Nat)),
      (done ++ rest).Pairwise (fun p q => p.1 < q.1) →
      (∀ p ∈ done ++ rest, ∀ q ∈ done ++ rest, q.1 - p.1 ≤ cfg.retention_period_ms) →
      ((done ++ rest).map (fun p => p.2.length)).sum ≤
        cfg.max_database_size_mb * 1024 * 1024 →
      store_sequence (constructorStrategies df inf) cfg name prop err rest
          (lastN cfg.max_entries_per_test (done.map (mkStoredEntry cfg name prop err))) =
        .ok (lastN cfg.max_entries_per_test
          ((done ++ rest).map (mkStoredEntry cfg name prop err))) := by
  intro rest
  induction rest with
  | nil =>
    intro done _ _ _
    simp [store_sequence]
  | cons item rest ih =>
    intro done hmono hret hsize
    have hl : (done ++ [item]) ++ rest = done ++ item :: rest := by simp
    have hsub1 : (done ++ [item]).Sublist (done ++ item :: rest) :=
      List.Sublist.append_left ((List.nil_sublist rest).cons₂ item) done
    have hm1 : (done ++ [item]).Pairwise (fun p q => p.1 < q.1) :=
      hmono.sublist hsub1
    have hr1 : ∀ p ∈ done ++ [item], item.1 - p.1 ≤ cfg.retention_period_ms := by
      intro p hp
      exact hret p (hsub1.subset hp) item (by simp)
    have hs1 : ((done ++ [item]).map (fun p => p.2.length)).sum ≤
        cfg.max_database_size_mb * 1024 * 1024 :=
      le_trans (sublist_sum_le (hsub1.map _)) hsize
    simp only [store_sequence]
    rw [store_step df inf cfg hauto hcomp name prop err done item hm1 hr1 hs1]
    have hrec := ih (done ++ [item]) (by rw [hl]; exact hmono)
      (by rw [hl]; exact hret) (by rw [hl]; exact hsize)
    rw [hl] at hrec
    exact hrec

/-- C3: starting from an empty database with `auto_cleanup` on, "none"
compression, ample size budget and retention window, storing
`max_entries_per_test + M` entries (`M > 0`) for one test name at
strictly increasing timestamps leaves exactly `max_entries_per_test`
entries — the most recently stored ones; the `M` oldest were evicted. -/
theorem C3_per_test_limit_keeps_newest (df : Nat → List Nat → List Nat)
    (inf : List Nat → Option (List Nat)) (cfg : DbConfig) (M : Nat) (hM : 0 < M)
    (hauto : cfg.auto_cleanup = true) (hcomp : cfg.default_compression = nameNone)
    (name prop err : List Nat) (items : List (Int × List Nat))
    (hlen : items.length = cfg.max_entries_per_test + M)
    (hmono : items.Pairwise (fun p q => p.1 < q.1))
    (hret : ∀ p ∈ items, ∀ q ∈ items, q.1 - p.1 ≤ cfg.retention_period_ms)
    (hsize : (items.map (fun p => p.2.length)).sum ≤
      cfg.max_database_size_mb * 1024 * 1024) :
    store_sequence (constructorStrategies df inf) cfg name prop err items [] =
      .ok ((items.drop M).map (mkStoredEntry cfg name prop err)) ∧
    ((items.drop M).map (mkStoredEntry cfg name prop err)).length =
      cfg.max_entries_per_test := by
  have main := store_sequence_inv df inf cfg hauto hcomp name prop err items []
    (by simpa using hmono) (by simpa using hret) (by simpa using hsize)
  simp only [List.map_nil, List.nil_append] at main
  have hempty : lastN cfg.max_entries_per_test ([] : List CounterexampleEntry) = [] :=
    lastN_of_le (by simp)
  rw [hempty] at main
  have hlast : lastN cfg.max_entries_per_test (items.map (mkStoredEntry cfg name prop err)) =
      (items.drop M).map (mkStoredEntry cfg name prop err) := by
    unfold lastN
    rw [List.length_map, hlen, Nat.add_sub_cancel_left, ← List.map_drop]
  rw [hlast] at main
  refine ⟨main, ?_⟩
  rw [List.length_map, List.length_drop, hlen]
  omega

/-- The C3 witness configuration: one entry per test, auto-cleanup, "none"
compression, ample budget and retention. -/
def c3cfg : DbConfig :=
  { max_database_size_mb := 100
    max_entries_per_test := 1
    auto_cleanup := true
    retention_period_ms := 10000
    default_compression := nameNone }

/-- C3 witness: two stores (K = 1, M = 1) for one test name leave exactly
the newer entry. -/
theorem C3_witness_two_stores :
    store_sequence (constructorStrategies (fun _ data => data) some) c3cfg [1] [2] []
        [((0 : Int), [5]), ((1 : Int), [6])] [] =
      .ok (([((0 : Int), [5]), ((1 : Int), [6])].drop 1).map (mkStoredEntry c3cfg [1] [2] [])) ∧
    (([((0 : Int), [5]), ((1 : Int), [6])].drop 1).map (mkStoredEntry c3cfg [1] [2] [])).length =
      c3cfg.max_entries_per_test :=
  C3_per_test_limit_keeps_newest (fun _ data => data) some c3cfg 1 (by decide) rfl rfl
    [1] [2] [] [((0 : Int), [5]), ((1 : Int), [6])] (by decide) (by decide) (by decide)
    (by decide)
